import Mathlib

/-!
Verification of the ZooKeeper-to-filesystem synchronization engine in
treadmill/zksync.py.  Filesystem paths are modelled structurally as lists of
name components; the mirror is a finite list of file entries (path, content,
mtime).  Machine state (watches, processed_once, ready, fsroot, files) mirrors
the Zk2Fs object.  Remote interactions are modelled by a Remote record of
functions, and each operation additionally returns the list of coordination
service calls it issued and the list of filesystem mutations it performed.
-/

namespace ZkSync

/-- A filesystem path, as its list of name components. -/
abbrev Path := List String

/-- Name of the per-directory done marker file. -/
def doneName : String := ".done"

/-- Name of the root-level readiness marker file. -/
def modifiedName : String := ".modified"

/-- Prefix of the temporary files produced by write_data. -/
def tmpName : String := ".tmp"

/-- Event type string checked by the data watch. -/
def deletedType : String := "DELETED"

/-- One mirrored file: its path, content and modification time. -/
structure FsEntry where
  path : Path
  content : String
  mtime : Nat
deriving DecidableEq

/-- Look a file up by path; os.path.exists corresponds to isSome. -/
def lookupFile (files : List FsEntry) (p : Path) : Option (String × Nat) :=
  (files.find? (fun e => e.path = p)).map (fun e => (e.content, e.mtime))

/-- Create or replace the file at path p with the given content and mtime. -/
def setFile (files : List FsEntry) (p : Path) (content : String) (mtime : Nat) :
    List FsEntry :=
  ⟨p, content, mtime⟩ :: files.filter (fun e => e.path ≠ p)

/-- Delete the file at path p, silently succeeding when it is absent;
models fs.rm_safe. -/
def rmFs (files : List FsEntry) (p : Path) : List FsEntry :=
  files.filter (fun e => e.path ≠ p)

/-- Create the file if needed and set its mtime to now; models utils.touch
followed by os.utime with the current wall-clock time. -/
def touchFs (files : List FsEntry) (p : Path) (now : Nat) : List FsEntry :=
  match lookupFile files p with
  | some c => setFile files p c.1 now
  | none => setFile files p ("") now

/-- The name directly under directory d that the path p passes through,
if p lies strictly below d. -/
def childNameUnder (d p : Path) : Option String :=
  if p.take d.length = d then
    match p.drop d.length with
    | [] => none
    | n :: _ => some n
  else none

/-- Whether a file name starts with a dot (its first code point is the dot
character); such names are skipped by Python's glob with a bare star
pattern. -/
def startsWithDot (n : String) : Bool :=
  match n.data with
  | [] => false
  | c :: _ => c = ('.' : Char)

/-- Sort a list of names in Python's ascending string order (lexicographic
on the lists of code points); models sorted(...). -/
def sortStrings (l : List String) : List String :=
  l.insertionSort (fun a b => ¬ b.data < a.data)

/-- The sorted list of names appearing directly under directory d in the
mirror; models sorted(map(os.path.basename, glob.glob(fpath + sep + star))).
Python's glob with a bare star pattern skips names starting with a dot. -/
def localFilenames (files : List FsEntry) (d : Path) : List String :=
  sortStrings
    ((((files.map FsEntry.path).filterMap (childNameUnder d)).dedup).filter
      (fun n => ¬ startsWithDot n))

/-- The whole state owned by one Zk2Fs instance. -/
structure SyncState where
  watches : List Path
  processed_once : List Path
  fsroot : Path
  ready : Bool
  files : List FsEntry
deriving DecidableEq

/-- File path of a zk node: fsroot joined with the node path;
models Zk2Fs.fpath. -/
def fpath (s : SyncState) (zkpath : Path) : Path :=
  s.fsroot ++ zkpath

/-- Models z.join_zookeeper_path. -/
def join_zookeeper_path (zkpath : Path) (n : String) : Path :=
  zkpath ++ [n]

/-- Path of the root-level readiness marker file. -/
def modifiedPath (s : SyncState) : Path :=
  s.fsroot ++ [modifiedName]

/-- Remove a path from the watch set; models set.discard. -/
def discardWatch (w : List Path) (p : Path) : List Path :=
  w.filter (fun q => q ≠ p)

/-- Add a path to the watch set; models set.add. -/
def addWatch (w : List Path) (p : Path) : List Path :=
  if p ∈ w then w else p :: w

/-- One call made to the coordination service. -/
inductive ZkCall where
  | get (p : Path)
  | getChildren (p : Path)
  | dataSubscribe (p : Path)
  | childrenSubscribe (p : Path)
deriving DecidableEq

/-- One mutation performed on the local filesystem. -/
inductive FsMut where
  | write (p : Path) (content : String) (mtime : Nat)
  | remove (p : Path)
  | touch (p : Path) (now : Nat)
deriving DecidableEq

/-- Whether a mutation is an atomic file write. -/
def FsMut.isWrite : FsMut → Bool
  | .write _ _ _ => true
  | _ => false

/-- The remote coordination namespace: nodes maps an existing node path to
its data (possibly absent value) and last_modified stamp; kids lists the
child names of a node. -/
structure Remote where
  nodes : Path → Option (Option String × Nat)
  kids : Path → List String

/-- Children listing wrapped in the try/except of sync_children: a missing
node raises NoNodeError, which is caught and turned into an empty list. -/
def getChildrenSafe (r : Remote) (p : Path) : List String :=
  match r.nodes p with
  | none => []
  | some _ => r.kids p

/-- Fault injection for write_data: the write can run to completion, fail
while the temporary file is being written, or fail at the final rename. -/
inductive WriteFault where
  | ok
  | midWrite
  | renameFail
deriving DecidableEq

/-- Outcome of write_data: the resulting filesystem and whether the call
raised an exception to its caller. -/
structure WriteRes where
  files : List FsEntry
  raised : Bool
deriving DecidableEq

/-- Path of the temporary file used by write_data: it lives in the same
directory as the destination and its name starts with the .tmp marker;
salt stands for the unpredictable suffix chosen by NamedTemporaryFile. -/
def tmpPath (p : Path) (salt : String) : Path :=
  p.dropLast ++ [tmpName ++ salt]

/-- Models write_data(fpath, data, modified, raise_err): write data (empty
when absent) to a fresh temporary file in the destination directory, stamp
it with the remote modification time, then rename it over the destination.
A failure while writing leaves the temporary file (created with
delete=False) holding partContent and propagates the exception; a rename
failure leaves the fully-written temporary file, logs, and re-raises only
when raise_err is set. -/
def write_data (files : List FsEntry) (p : Path) (data : Option String)
    (modified : Nat) (raise_err : Bool) (salt : String) (partContent : String)
    (fault : WriteFault) : WriteRes :=
  let tmp := tmpPath p salt
  match fault with
  | .midWrite => { files := setFile files tmp partContent 0, raised := true }
  | .renameFail =>
      { files := setFile files tmp (data.getD ("")) modified, raised := raise_err }
  | .ok =>
      { files := setFile (rmFs files tmp) p (data.getD ("")) modified,
        raised := false }

/-- Models Zk2Fs._update_last: bump the readiness marker file, but only
once the engine has been marked ready. -/
def _update_last (s : SyncState) (now : Nat) : SyncState :=
  if s.ready then { s with files := touchFs s.files (modifiedPath s) now }
  else s

/-- Models Zk2Fs.mark_ready: set the readiness flag, then bump the marker. -/
def mark_ready (s : SyncState) (now : Nat) : SyncState :=
  _update_last { s with ready := true } now

/-- A delivered data-watch event; the code only inspects its type field. -/
structure ZkEvent where
  type : String
deriving DecidableEq

/-- Result of one data-watch delivery. -/
structure DwRes where
  state : SyncState
  muts : List FsMut
  renew : Bool
deriving DecidableEq

/-- Models Zk2Fs._data_watch(zkpath, data, stat, event): when data is absent
and no event was delivered, or when the delivered event has type DELETED,
unwatch the path and delete the mirrored file; otherwise atomically write
the delivered data stamped with the stat's last_modified time.  The watch is
renewed exactly when the path is still in the watch set afterwards. -/
def _data_watch (s : SyncState) (zkpath : Path) (data : Option String)
    (statMtime : Nat) (event : Option ZkEvent) : DwRes :=
  let fp := fpath s zkpath
  let step :=
    if data = none ∧ event = none then
      ({ s with watches := discardWatch s.watches zkpath,
                files := rmFs s.files fp }, [FsMut.remove fp])
    else if (event.map ZkEvent.type) = some deletedType then
      ({ s with watches := discardWatch s.watches zkpath,
                files := rmFs s.files fp }, [FsMut.remove fp])
    else
      ({ s with files := setFile s.files fp (data.getD ("")) statMtime },
       [FsMut.write fp (data.getD ("")) statMtime])
  { state := step.1, muts := step.2, renew := decide (zkpath ∈ step.1.watches) }

/-- Result of sync_data. -/
structure SdRes where
  state : SyncState
  zkCalls : List ZkCall
  muts : List FsMut
deriving DecidableEq

/-- Models Zk2Fs.sync_data(zkpath): for a watched path just install the data
subscription (deliveries then drive _data_watch); otherwise synchronously
fetch the node and atomically write it stamped with the remote
last_modified time, then bump the readiness marker.  A missing node makes
the synchronous get raise (none result). -/
def sync_data (s : SyncState) (remote : Remote) (now : Nat) (zkpath : Path) :
    Option SdRes :=
  if zkpath ∈ s.watches then
    some { state := s, zkCalls := [ZkCall.dataSubscribe zkpath], muts := [] }
  else
    match remote.nodes zkpath with
    | none => none
    | some d =>
        let fp := fpath s zkpath
        let s1 := { s with files := setFile s.files fp (d.1.getD ("")) d.2 }
        some { state := _update_last s1 now,
               zkCalls := [ZkCall.get zkpath],
               muts := FsMut.write fp (d.1.getD ("")) d.2 ::
                 (if s.ready then [FsMut.touch (modifiedPath s) now] else []) }

/-- Inner step of _filter_children_actions: one remote child name c (with
remaining remote names cs handled by k equal to the outer pass on cs) is
compared against the remaining local file names.  The three branches are
the three comparisons of the Python loop body: equal names classify as
common and advance both cursors; a smaller child name classifies as add and
advances the remote cursor; a smaller file name classifies as remove and
advances the local cursor.  An exhausted local list classifies the child as
add. -/
def filterChildrenStep (c : String) (k : List String → List String × List String × List String) :
    List String → List String × List String × List String
  | [] =>
      let r := k []
      (c :: r.1, r.2.1, r.2.2)
  | f :: fs =>
      if c = f then
        let r := k fs
        (r.1, r.2.1, c :: r.2.2)
      else if c.data < f.data then
        let r := k (f :: fs)
        (c :: r.1, r.2.1, r.2.2)
      else
        let r := filterChildrenStep c k fs
        (r.1, f :: r.2.1, r.2.2)

/-- Models Zk2Fs._filter_children_actions(sorted_children, sorted_filenames,
add, remove, common): the single linear merge pass over the two sorted name
lists, returning the (add, remove, common) classification that the Python
code accumulates into its three output lists.  When the remote list is
exhausted every remaining local name is classified as remove. -/
def _filter_children_actions : List String → List String →
    List String × List String × List String
  | [], sorted_filenames => ([], sorted_filenames, [])
  | c :: cs, sorted_filenames =>
      filterChildrenStep c (_filter_children_actions cs) sorted_filenames

/-- Result of one children reconciliation pass: final state, coordination
calls, filesystem mutations, the nodes passed to on_del and to on_add, and
the boolean the callback returns to keep or drop the children watch. -/
structure CwRes where
  state : SyncState
  zkCalls : List ZkCall
  muts : List FsMut
  delCalls : List Path
  addCalls : List Path
  renew : Bool
deriving DecidableEq

/-- The removal loop of _children_watch: for every name classified as
remove, drop the node from the watch set and invoke the default on_del,
which deletes the mirrored file.  Returns the final state, the mutations
and the nodes on_del was invoked on. -/
def removeLoop (zkpath : Path) : SyncState → List String →
    SyncState × List FsMut × List Path
  | s, [] => (s, [], [])
  | s, n :: ns =>
      let zknode := join_zookeeper_path zkpath n
      let s1 := { s with watches := discardWatch s.watches zknode }
      let s2 := { s1 with files := rmFs s1.files (fpath s1 zknode) }
      let r := removeLoop zkpath s2 ns
      (r.1, FsMut.remove (fpath s zknode) :: r.2.1, zknode :: r.2.2)

/-- Result of the add/common loops of _children_watch. -/
structure AlRes where
  state : SyncState
  zkCalls : List ZkCall
  muts : List FsMut
  addCalls : List Path
deriving DecidableEq

/-- The loop body shared by the common loop and the add loop of
_children_watch: for each name, add the node to the watch set when
watch_data is requested, then invoke the default on_add, which is
sync_data.  Fails when sync_data raises. -/
def addLoop (remote : Remote) (now : Nat) (watch_data : Bool) (zkpath : Path) :
    SyncState → List String → Option AlRes
  | s, [] => some { state := s, zkCalls := [], muts := [], addCalls := [] }
  | s, n :: ns =>
      let zknode := join_zookeeper_path zkpath n
      let s1 := if watch_data then { s with watches := addWatch s.watches zknode }
                else s
      match sync_data s1 remote now zknode with
      | none => none
      | some r =>
          match addLoop remote now watch_data zkpath r.state ns with
          | none => none
          | some r2 =>
              some { state := r2.state,
                     zkCalls := r.zkCalls ++ r2.zkCalls,
                     muts := r.muts ++ r2.muts,
                     addCalls := zknode :: r2.addCalls }

/-- Evaluation of the cont_watch_predicate parameter as done at the end of
_children_watch: when no predicate was supplied the callback returns True,
keeping the watch; otherwise it returns the predicate applied to the zk
path and the sorted remote children. -/
def contPredEval (p : Option (Path → List String → Bool)) (zkpath : Path)
    (sorted_children : List String) : Bool :=
  match p with
  | some f => f zkpath sorted_children
  | none => true

/-- Evaluation of the need_watch_predicate parameter as done by
sync_children: absent means the watch is needed. -/
def needPredEval (p : Option (Path → Bool)) (zkpath : Path) : Bool :=
  match p with
  | some f => f zkpath
  | none => true

/-- Models Zk2Fs._children_watch(zkpath, children, watch_data, on_add,
on_del, cont_watch_predicate) with the default callbacks: sort the remote
children and the local (dot-free) directory listing, classify them with the
linear merge pass, run on_del over the removals, run on_add over the common
names only when this parent has never been processed (marking it processed
first), always run on_add over the additions, and finally return the
cont_watch_predicate verdict (True when absent). -/
def _children_watch (s : SyncState) (remote : Remote) (now : Nat)
    (zkpath : Path) (children : List String) (watch_data : Bool)
    (cont_watch_predicate : Option (Path → List String → Bool)) :
    Option CwRes :=
  let fp := fpath s zkpath
  let sorted_children := sortStrings children
  let sorted_filenames := localFilenames s.files fp
  let acts := _filter_children_actions sorted_children sorted_filenames
  let rl := removeLoop zkpath s acts.2.1
  let step2 :=
    if zkpath ∈ rl.1.processed_once then
      some (AlRes.mk rl.1 [] [] [])
    else
      addLoop remote now watch_data zkpath
        { rl.1 with processed_once := zkpath :: rl.1.processed_once } acts.2.2
  match step2 with
  | none => none
  | some a1 =>
      match addLoop remote now watch_data zkpath a1.state acts.1 with
      | none => none
      | some a2 =>
          some { state := a2.state,
                 zkCalls := a1.zkCalls ++ a2.zkCalls,
                 muts := rl.2.1 ++ a1.muts ++ a2.muts,
                 delCalls := rl.2.2,
                 addCalls := a1.addCalls ++ a2.addCalls,
                 renew := contPredEval cont_watch_predicate zkpath sorted_children }

/-- Result of sync_children: final state, coordination calls in order,
filesystem mutations, whether a children subscription was installed, and
whether the done marker was written. -/
structure ScRes where
  state : SyncState
  zkCalls : List ZkCall
  muts : List FsMut
  watchInstalled : Bool
  doneWritten : Bool
deriving DecidableEq

/-- Models Zk2Fs.sync_children(zkpath, watch_data, on_add, on_del,
need_watch_predicate, cont_watch_predicate) with default callbacks: ensure
the mirror directory exists, return immediately when the done marker file
exists, otherwise either install the children subscription right away (when
the need_watch_predicate is absent or says yes), or perform one synchronous
listing, reconcile it with _children_watch, install the subscription anyway
when that pass said to keep watching, bump the readiness marker, and write
the done marker when no subscription ended up installed. -/
def sync_children (s : SyncState) (remote : Remote) (now : Nat)
    (zkpath : Path) (watch_data : Bool)
    (need_watch_predicate : Option (Path → Bool))
    (cont_watch_predicate : Option (Path → List String → Bool)) :
    Option ScRes :=
  let fp := fpath s zkpath
  let done_file := fp ++ [doneName]
  if (lookupFile s.files done_file).isSome then
    some { state := s, zkCalls := [], muts := [],
           watchInstalled := false, doneWritten := false }
  else
    if needPredEval need_watch_predicate zkpath then
      some { state := s, zkCalls := [ZkCall.childrenSubscribe zkpath],
             muts := [], watchInstalled := true, doneWritten := false }
    else
      let children := getChildrenSafe remote zkpath
      match _children_watch s remote now zkpath children watch_data
          cont_watch_predicate with
      | none => none
      | some cw =>
          if cw.renew then
            some { state := _update_last cw.state now,
                   zkCalls := ZkCall.getChildren zkpath ::
                     (cw.zkCalls ++ [ZkCall.childrenSubscribe zkpath]),
                   muts := cw.muts, watchInstalled := true,
                   doneWritten := false }
          else
            let s2 := _update_last cw.state now
            some { state := { s2 with files := touchFs s2.files done_file now },
                   zkCalls := ZkCall.getChildren zkpath :: cw.zkCalls,
                   muts := cw.muts ++ [FsMut.touch done_file now],
                   watchInstalled := false, doneWritten := true }

end ZkSync

namespace ZkSync

/-! Basic lemmas about the filesystem model. -/

theorem lookupFile_setFile_self (files : List FsEntry) (p : Path)
    (c : String) (m : Nat) :
    lookupFile (setFile files p c m) p = some (c, m) := by
  simp [lookupFile, setFile, List.find?_cons]

theorem find?_filter_ne (l : List FsEntry) (pp qq : Path) (h : qq ≠ pp) :
    (l.filter (fun e => e.path ≠ pp)).find? (fun e => e.path = qq) =
      l.find? (fun e => e.path = qq) := by
  induction l with
  | nil => rfl
  | cons e es ih =>
      rw [List.filter_cons]
      by_cases hp : e.path = pp
      · have hq : ¬ e.path = qq := fun hqq => h (hqq ▸ hp)
        rw [if_neg (by simp [hp]), List.find?_cons_of_neg _ (by simp [hq])]
        exact ih
      · by_cases hq : e.path = qq
        · rw [if_pos (by simp [hp]), List.find?_cons_of_pos _ (by simp [hq]),
            List.find?_cons_of_pos _ (by simp [hq])]
        · rw [if_pos (by simp [hp]), List.find?_cons_of_neg _ (by simp [hq]),
            List.find?_cons_of_neg _ (by simp [hq])]
          exact ih

theorem lookupFile_setFile_ne (files : List FsEntry) (p q : Path)
    (c : String) (m : Nat) (h : q ≠ p) :
    lookupFile (setFile files p c m) q = lookupFile files q := by
  unfold lookupFile setFile
  rw [List.find?_cons_of_neg _ (by simp [Ne.symm h]),
    find?_filter_ne files p q h]

theorem lookupFile_rmFs_self (files : List FsEntry) (p : Path) :
    lookupFile (rmFs files p) p = none := by
  have : (rmFs files p).find? (fun e => e.path = p) = none := by
    rw [List.find?_eq_none]
    intro e he
    have := (List.mem_filter.mp he).2
    simpa using this
  simp [lookupFile, this]

theorem touchFs_mtime (files : List FsEntry) (p : Path) (now : Nat) :
    (lookupFile (touchFs files p now) p).map Prod.snd = some now := by
  unfold touchFs
  cases h : lookupFile files p with
  | none => simp [lookupFile_setFile_self]
  | some c => simp [lookupFile_setFile_self]

theorem not_mem_discardWatch (w : List Path) (p : Path) :
    p ∉ discardWatch w p := by
  simp [discardWatch]

theorem _update_last_watches (s : SyncState) (now : Nat) :
    (_update_last s now).watches = s.watches := by
  unfold _update_last
  split <;> rfl

theorem _update_last_processed_once (s : SyncState) (now : Nat) :
    (_update_last s now).processed_once = s.processed_once := by
  unfold _update_last
  split <;> rfl

/-! Claim theorems. -/

/-- C6: write(path, data, mtime) never leaves the destination observably
changed on failure: when the write fails before the rename, or when the
rename itself fails, the content previously at the destination path is
exactly preserved; a mid-write failure propagates the exception, and a
rename failure raises exactly when the caller did not request best-effort
behaviour (raise_err).  The hypothesis rules out the degenerate case where
the fresh temporary name collides with the destination itself. -/
theorem write_data_failure_preserves_destination
    (files : List FsEntry) (p : Path) (data : Option String) (modified : Nat)
    (raise_err : Bool) (salt partContent : String)
    (hne : tmpPath p salt ≠ p) :
    (lookupFile (write_data files p data modified raise_err salt partContent
        WriteFault.midWrite).files p = lookupFile files p
      ∧ (write_data files p data modified raise_err salt partContent
          WriteFault.midWrite).raised = true)
    ∧ (lookupFile (write_data files p data modified raise_err salt partContent
        WriteFault.renameFail).files p = lookupFile files p
      ∧ (write_data files p data modified raise_err salt partContent
          WriteFault.renameFail).raised = raise_err) := by
  refine ⟨⟨?_, rfl⟩, ?_, rfl⟩ <;>
    exact lookupFile_setFile_ne _ _ _ _ _ (Ne.symm hne)

/-- Witness for C6 at a concrete filesystem and destination. -/
theorem write_data_failure_preserves_destination_witness :
    tmpPath [("d"), ("f")] ("123") ≠ [("d"), ("f")]
    ∧ (lookupFile (write_data [⟨[("d"), ("f")], ("old"), 1⟩] [("d"), ("f")]
        (some ("new")) 9 true ("123") ("par") WriteFault.midWrite).files
        [("d"), ("f")] = lookupFile [⟨[("d"), ("f")], ("old"), 1⟩] [("d"), ("f")]
      ∧ (write_data [⟨[("d"), ("f")], ("old"), 1⟩] [("d"), ("f")]
          (some ("new")) 9 true ("123") ("par") WriteFault.midWrite).raised = true) := by
  refine ⟨by decide, ?_⟩
  exact (write_data_failure_preserves_destination
    [⟨[("d"), ("f")], ("old"), 1⟩] [("d"), ("f")] (some ("new")) 9 true
    ("123") ("par") (by decide)).1

/-- C7: mark_ready always sets the readiness flag and bumps the readiness
marker file mtime to the current time, even absent any other mutation,
while the marker bump performed by every mutation (update_last) is a no-op
as long as the engine is not yet ready. -/
theorem mark_ready_bumps_marker (s : SyncState) (now : Nat)
    (h : s.ready = false) :
    (mark_ready s now).ready = true
    ∧ (lookupFile (mark_ready s now).files (modifiedPath s)).map Prod.snd =
        some now
    ∧ _update_last s now = s := by
  refine ⟨rfl, ?_, by simp [_update_last, h]⟩
  show (lookupFile (touchFs s.files (modifiedPath s) now) _).map Prod.snd = _
  exact touchFs_mtime s.files (modifiedPath s) now

/-- Witness for C7 on a fresh not-yet-ready engine state. -/
theorem mark_ready_bumps_marker_witness :
    (SyncState.mk [] [] [("r")] false []).ready = false
    ∧ ((mark_ready (SyncState.mk [] [] [("r")] false []) 5).ready = true
      ∧ (lookupFile (mark_ready (SyncState.mk [] [] [("r")] false []) 5).files
          (modifiedPath (SyncState.mk [] [] [("r")] false []))).map Prod.snd =
            some 5
      ∧ _update_last (SyncState.mk [] [] [("r")] false []) 5 =
          SyncState.mk [] [] [("r")] false []) :=
  ⟨rfl, mark_ready_bumps_marker (SyncState.mk [] [] [("r")] false []) 5 rfl⟩

/-- C4: when the mirror directory of a path already holds the done marker
file, sync_children returns immediately: no coordination-service call, no
filesystem mutation, no subscription, and the state is untouched. -/
theorem sync_children_done_short_circuit (s : SyncState) (remote : Remote)
    (now : Nat) (zkpath : Path) (watch_data : Bool)
    (need_watch_predicate : Option (Path → Bool))
    (cont_watch_predicate : Option (Path → List String → Bool))
    (hdone : (lookupFile s.files (fpath s zkpath ++ [doneName])).isSome = true) :
    sync_children s remote now zkpath watch_data need_watch_predicate
        cont_watch_predicate =
      some { state := s, zkCalls := [], muts := [],
             watchInstalled := false, doneWritten := false } := by
  simp [sync_children, hdone]

/-- Witness for C4: a mirror directory holding its done marker. -/
theorem sync_children_done_short_circuit_witness :
    (lookupFile [FsEntry.mk [("r"), ("p"), doneName] ("") 0]
        (fpath (SyncState.mk [] [] [("r")] false
          [FsEntry.mk [("r"), ("p"), doneName] ("") 0]) [("p")] ++ [doneName])).isSome = true
    ∧ sync_children (SyncState.mk [] [] [("r")] false
          [FsEntry.mk [("r"), ("p"), doneName] ("") 0])
        (Remote.mk (fun _ => none) (fun _ => [])) 3 [("p")] false none none =
      some { state := SyncState.mk [] [] [("r")] false
               [FsEntry.mk [("r"), ("p"), doneName] ("") 0],
             zkCalls := [], muts := [],
             watchInstalled := false, doneWritten := false } :=
  ⟨by decide,
   sync_children_done_short_circuit _ (Remote.mk (fun _ => none) (fun _ => []))
     3 [("p")] false none none (by decide)⟩

end ZkSync

namespace ZkSync

/-- C3 counterexample: a data-watch delivery with data still present (some
value) but a DELETED event nevertheless deletes the mirrored file, removes
the path from the watch set and does not renew — so the deletion condition
does not require data to be absent in the event branch, contrary to the
claim. -/
theorem data_watch_deleted_event_ignores_data :
    (some ("x") : Option String) ≠ none
    ∧ _data_watch (SyncState.mk [[("n")]] [] [] false [⟨[("n")], ("old"), 0⟩])
        [("n")] (some ("x")) 5 (some (ZkEvent.mk deletedType)) =
      { state := SyncState.mk [] [] [] false [],
        muts := [FsMut.remove [("n")]], renew := false } :=
  ⟨by decide, by decide⟩

/-- C3 (amended): a data-watch delivery in which either data is absent and
no event was delivered, or the delivered event is a deletion event
(regardless of data), deletes the mirrored file, removes the path from the
watch set and returns a do-not-renew result. -/
theorem data_watch_deletion_semantics (s : SyncState) (zkpath : Path)
    (data : Option String) (statMtime : Nat) (event : Option ZkEvent)
    (h : (data = none ∧ event = none)
      ∨ event.map ZkEvent.type = some deletedType) :
    lookupFile (_data_watch s zkpath data statMtime event).state.files
        (fpath s zkpath) = none
    ∧ zkpath ∉ (_data_watch s zkpath data statMtime event).state.watches
    ∧ (_data_watch s zkpath data statMtime event).renew = false := by
  have hstep :
      (_data_watch s zkpath data statMtime event).state =
        { s with watches := discardWatch s.watches zkpath,
                 files := rmFs s.files (fpath s zkpath) } ∧
      (_data_watch s zkpath data statMtime event).renew =
        decide (zkpath ∈ discardWatch s.watches zkpath) := by
    rcases h with ⟨h1, h2⟩ | h3
    · subst h1; subst h2
      exact ⟨rfl, rfl⟩
    · by_cases hfirst : data = none ∧ event = none
      · rcases hfirst with ⟨h1, h2⟩
        subst h1; subst h2
        exact ⟨rfl, rfl⟩
      · simp only [_data_watch]
        rw [if_neg hfirst, if_pos h3]
        exact ⟨rfl, rfl⟩
  refine ⟨?_, ?_, ?_⟩
  · rw [hstep.1]
    exact lookupFile_rmFs_self s.files (fpath s zkpath)
  · rw [hstep.1]
    exact not_mem_discardWatch s.watches zkpath
  · rw [hstep.2]
    simp [not_mem_discardWatch]

/-- Witness for the amended C3 at a concrete watched path whose file exists,
delivering an absent value with no event. -/
theorem data_watch_deletion_semantics_witness :
    ((none : Option String) = none ∧ (none : Option ZkEvent) = none)
    ∧ (lookupFile (_data_watch
          (SyncState.mk [[("n")]] [] [] false [⟨[("n")], ("old"), 0⟩])
          [("n")] none 5 none).state.files
        (fpath (SyncState.mk [[("n")]] [] [] false [⟨[("n")], ("old"), 0⟩])
          [("n")]) = none
      ∧ [("n")] ∉ (_data_watch
          (SyncState.mk [[("n")]] [] [] false [⟨[("n")], ("old"), 0⟩])
          [("n")] none 5 none).state.watches
      ∧ (_data_watch
          (SyncState.mk [[("n")]] [] [] false [⟨[("n")], ("old"), 0⟩])
          [("n")] none 5 none).renew = false) :=
  ⟨⟨rfl, rfl⟩,
   data_watch_deletion_semantics
     (SyncState.mk [[("n")]] [] [] false [⟨[("n")], ("old"), 0⟩])
     [("n")] none 5 none (Or.inl ⟨rfl, rfl⟩)⟩

/-- C8: for a path not in the watch set, sync_data performs exactly one
synchronous remote fetch, performs exactly one atomic write (stamped with
the remote last_modified time), installs no subscription, and leaves both
the watch set and the processed-once set unchanged. -/
theorem sync_data_unwatched_snapshot (s : SyncState) (remote : Remote)
    (now : Nat) (zkpath : Path) (d : Option String × Nat)
    (hw : zkpath ∉ s.watches) (hn : remote.nodes zkpath = some d) :
    ∃ r, sync_data s remote now zkpath = some r
      ∧ r.zkCalls = [ZkCall.get zkpath]
      ∧ r.muts.filter FsMut.isWrite =
          [FsMut.write (fpath s zkpath) (d.1.getD ("")) d.2]
      ∧ r.state.watches = s.watches
      ∧ r.state.processed_once = s.processed_once := by
  have heq : sync_data s remote now zkpath =
      some { state := _update_last
               { s with files := setFile s.files (fpath s zkpath) (d.1.getD ("")) d.2 } now,
             zkCalls := [ZkCall.get zkpath],
             muts := FsMut.write (fpath s zkpath) (d.1.getD ("")) d.2 ::
               (if s.ready then [FsMut.touch (modifiedPath s) now] else []) } := by
    unfold sync_data
    rw [if_neg hw, hn]
  refine ⟨_, heq, rfl, ?_, ?_, ?_⟩
  · rcases Bool.eq_false_or_eq_true s.ready with hr | hr <;>
      rw [hr] <;> simp [FsMut.isWrite]
  · exact _update_last_watches _ _
  · exact _update_last_processed_once _ _

/-- Witness for C8 at a concrete unwatched node. -/
theorem sync_data_unwatched_snapshot_witness :
    ([("n")] ∉ ([] : List Path))
    ∧ ∃ r, sync_data (SyncState.mk [] [] [("r")] false [])
        (Remote.mk (fun _ => some (some ("x"), 9)) (fun _ => [])) 4 [("n")] =
          some r
      ∧ r.zkCalls = [ZkCall.get [("n")]]
      ∧ r.muts.filter FsMut.isWrite =
          [FsMut.write (fpath (SyncState.mk [] [] [("r")] false []) [("n")])
            ((some ("x")).getD ("")) 9]
      ∧ r.state.watches = (SyncState.mk [] [] [("r")] false []).watches
      ∧ r.state.processed_once =
          (SyncState.mk [] [] [("r")] false []).processed_once :=
  ⟨by decide,
   sync_data_unwatched_snapshot (SyncState.mk [] [] [("r")] false [])
     (Remote.mk (fun _ => some (some ("x"), 9)) (fun _ => [])) 4 [("n")]
     (some ("x"), 9) (by decide) rfl⟩

end ZkSync

namespace ZkSync

/-! Lemmas about the children diff and the reconciliation loops. -/

theorem fca_self (l : List String) :
    _filter_children_actions l l = ([], [], l) := by
  induction l with
  | nil => rfl
  | cons c cs ih =>
      show filterChildrenStep c (_filter_children_actions cs) (c :: cs) = _
      simp [filterChildrenStep, ih]

theorem sync_data_processed_once (s : SyncState) (remote : Remote) (now : Nat)
    (zkpath : Path) (r : SdRes) (h : sync_data s remote now zkpath = some r) :
    r.state.processed_once = s.processed_once := by
  unfold sync_data at h
  by_cases hw : zkpath ∈ s.watches
  · rw [if_pos hw] at h
    cases h
    rfl
  · rw [if_neg hw] at h
    cases hn : remote.nodes zkpath with
    | none => rw [hn] at h; cases h
    | some d =>
        rw [hn] at h
        cases h
        exact _update_last_processed_once _ _

theorem sync_data_fsroot (s : SyncState) (remote : Remote) (now : Nat)
    (zkpath : Path) (r : SdRes) (h : sync_data s remote now zkpath = some r) :
    r.state.fsroot = s.fsroot := by
  unfold sync_data at h
  by_cases hw : zkpath ∈ s.watches
  · rw [if_pos hw] at h
    cases h
    rfl
  · rw [if_neg hw] at h
    cases hn : remote.nodes zkpath with
    | none => rw [hn] at h; cases h
    | some d =>
        rw [hn] at h
        cases h
        unfold _update_last
        split <;> rfl

theorem addLoop_processed_once (remote : Remote) (now : Nat)
    (watch_data : Bool) (zkpath : Path) :
    ∀ (l : List String) (s : SyncState) (r : AlRes),
      addLoop remote now watch_data zkpath s l = some r →
      r.state.processed_once = s.processed_once := by
  intro l
  induction l with
  | nil =>
      intro s r h
      cases h
      rfl
  | cons n ns ih =>
      intro s r h
      simp only [addLoop] at h
      split at h
      · cases h
      · rename_i r1 hsd
        split at h
        · cases h
        · rename_i r2 hal
          cases h
          have h1 := ih r1.state r2 hal
          have h2 := sync_data_processed_once _ remote now _ r1 hsd
          rw [h1, h2]
          cases watch_data <;> rfl

theorem removeLoop_processed_once (zkpath : Path) :
    ∀ (l : List String) (s : SyncState),
      (removeLoop zkpath s l).1.processed_once = s.processed_once := by
  intro l
  induction l with
  | nil => intro s; rfl
  | cons n ns ih => intro s; exact ih _

theorem removeLoop_delCalls (zkpath : Path) :
    ∀ (l : List String) (s : SyncState),
      (removeLoop zkpath s l).2.2 =
        l.map (fun n => join_zookeeper_path zkpath n) := by
  intro l
  induction l with
  | nil => intro s; rfl
  | cons n ns ih =>
      intro s
      show join_zookeeper_path zkpath n :: (removeLoop zkpath _ ns).2.2 = _
      rw [ih, List.map_cons]

/-- C2: with no intervening remote or local change (the local listing of the
mirror directory equals the sorted remote children) and the parent already
recorded in the processed-once set, a further children reconciliation is a
complete no-op: no coordination call, no filesystem mutation, no on_del or
on_add invocation, and an unchanged state.  Moreover the first
reconciliation of a parent always records it in the processed-once set, so
the situation above is exactly that of a second syncChildren pass. -/
theorem children_watch_second_pass_noop (s : SyncState) (remote : Remote)
    (now : Nat) (zkpath : Path) (children : List String) (watch_data : Bool)
    (cont_watch_predicate : Option (Path → List String → Bool))
    (heq : localFilenames s.files (fpath s zkpath) = sortStrings children)
    (hpo : zkpath ∈ s.processed_once) :
    _children_watch s remote now zkpath children watch_data
        cont_watch_predicate =
      some { state := s, zkCalls := [], muts := [], delCalls := [],
             addCalls := [],
             renew := contPredEval cont_watch_predicate zkpath
               (sortStrings children) }
    ∧ ∀ (s' : SyncState) (cw : CwRes), zkpath ∉ s'.processed_once →
        _children_watch s' remote now zkpath children watch_data
            cont_watch_predicate = some cw →
        zkpath ∈ cw.state.processed_once := by
  constructor
  · simp only [_children_watch]
    rw [heq, fca_self]
    simp [removeLoop, addLoop, hpo]
  · intro s' cw hnpo h
    simp only [_children_watch] at h
    rw [if_neg (by rw [removeLoop_processed_once]; exact hnpo)] at h
    split at h
    · cases h
    · rename_i a1 hal
      split at h
      · cases h
      · rename_i a2 ha2
        cases h
        show zkpath ∈ a2.state.processed_once
        rw [addLoop_processed_once remote now watch_data zkpath _ _ _ ha2,
          addLoop_processed_once remote now watch_data zkpath _ _ _ hal]
        exact List.mem_cons_self _ _

end ZkSync

namespace ZkSync

/-- Witness for C2: a mirror already holding exactly the remote child, with
the parent recorded as processed; the reconciliation is a no-op. -/
theorem children_watch_second_pass_noop_witness :
    localFilenames [⟨[("r"),("p"),("a")], ("x"), 3⟩]
        (fpath (SyncState.mk [] [[("p")]] [("r")] false
          [⟨[("r"),("p"),("a")], ("x"), 3⟩]) [("p")]) = sortStrings [("a")]
    ∧ [("p")] ∈ (SyncState.mk [] [[("p")]] [("r")] false
        [⟨[("r"),("p"),("a")], ("x"), 3⟩]).processed_once
    ∧ _children_watch (SyncState.mk [] [[("p")]] [("r")] false
          [⟨[("r"),("p"),("a")], ("x"), 3⟩])
        (Remote.mk (fun _ => some (some ("x"), 3)) (fun _ => [("a")])) 7
        [("p")] [("a")] false none =
      some { state := SyncState.mk [] [[("p")]] [("r")] false
               [⟨[("r"),("p"),("a")], ("x"), 3⟩],
             zkCalls := [], muts := [], delCalls := [], addCalls := [],
             renew := contPredEval none [("p")] (sortStrings [("a")]) } :=
  ⟨by decide, by decide,
   (children_watch_second_pass_noop
     (SyncState.mk [] [[("p")]] [("r")] false [⟨[("r"),("p"),("a")], ("x"), 3⟩])
     (Remote.mk (fun _ => some (some ("x"), 3)) (fun _ => [("a")])) 7
     [("p")] [("a")] false none (by decide) (by decide)).1⟩

/-- Every name classified as remove by the diff occurs in the local
filename list. -/
theorem fca_remove_subset (c : List String) :
    ∀ (f : List String) (x : String),
      x ∈ (_filter_children_actions c f).2.1 → x ∈ f := by
  induction c with
  | nil =>
      intro f x hx
      simpa [_filter_children_actions] using hx
  | cons a cs ih =>
      intro f
      induction f with
      | nil =>
          intro x hx
          show x ∈ ([] : List String)
          have : (_filter_children_actions (a :: cs) []).2.1 =
              (_filter_children_actions cs []).2.1 := rfl
          rw [this] at hx
          exact ih [] x hx
      | cons b fs ihf =>
          intro x hx
          show x ∈ b :: fs
          by_cases hab : a = b
          · have : (_filter_children_actions (a :: cs) (b :: fs)).2.1 =
                (_filter_children_actions cs fs).2.1 := by
              show (filterChildrenStep a (_filter_children_actions cs) (b :: fs)).2.1 = _
              rw [filterChildrenStep, if_pos hab]
            rw [this] at hx
            exact List.mem_cons_of_mem b (ih fs x hx)
          · by_cases hlt : a.data < b.data
            · have : (_filter_children_actions (a :: cs) (b :: fs)).2.1 =
                  (_filter_children_actions cs (b :: fs)).2.1 := by
                show (filterChildrenStep a (_filter_children_actions cs) (b :: fs)).2.1 = _
                rw [filterChildrenStep, if_neg hab, if_pos hlt]
              rw [this] at hx
              exact ih (b :: fs) x hx
            · have : (_filter_children_actions (a :: cs) (b :: fs)).2.1 =
                  b :: (_filter_children_actions (a :: cs) fs).2.1 := by
                show (filterChildrenStep a (_filter_children_actions cs) (b :: fs)).2.1 = _
                rw [filterChildrenStep, if_neg hab, if_neg hlt]
                rfl
              rw [this] at hx
              rcases List.mem_cons.mp hx with hxb | hxm
              · exact hxb ▸ List.mem_cons_self b fs
              · exact List.mem_cons_of_mem b (ihf x hxm)

/-- Names starting with a dot never appear in the local directory listing
used by the children diff, because glob with a bare star pattern skips
them. -/
theorem dot_not_mem_localFilenames (files : List FsEntry) (d : Path)
    (n : String) (hdot : startsWithDot n = true) :
    n ∉ localFilenames files d := by
  intro hmem
  unfold localFilenames sortStrings at hmem
  rw [List.mem_insertionSort] at hmem
  have := List.mem_filter.mp hmem
  simp [hdot] at this

/-- The delete callbacks produced by a children reconciliation are exactly
the removals joined below the parent path. -/
theorem children_watch_delCalls (s : SyncState) (remote : Remote) (now : Nat)
    (zkpath : Path) (children : List String) (watch_data : Bool)
    (cont_watch_predicate : Option (Path → List String → Bool)) (cw : CwRes)
    (h : _children_watch s remote now zkpath children watch_data
        cont_watch_predicate = some cw) :
    cw.delCalls =
      ((_filter_children_actions (sortStrings children)
          (localFilenames s.files (fpath s zkpath))).2.1).map
        (fun n => join_zookeeper_path zkpath n) := by
  simp only [_children_watch] at h
  split at h
  · cases h
  · rename_i a1 hal
    split at h
    · cases h
    · rename_i a2 ha2
      cases h
      exact removeLoop_delCalls zkpath _ s

/-- C10: the local directory listing used by the children diff excludes all
names beginning with a dot, hence a children reconciliation never
classifies such a name (the done marker, the readiness marker, leftover
temporary files) as a removal, and never invokes on_del on it. -/
theorem children_watch_never_removes_dotfiles (s : SyncState)
    (remote : Remote) (now : Nat) (zkpath : Path) (children : List String)
    (watch_data : Bool)
    (cont_watch_predicate : Option (Path → List String → Bool))
    (n : String) (cw : CwRes) (hdot : startsWithDot n = true)
    (hrun : _children_watch s remote now zkpath children watch_data
        cont_watch_predicate = some cw) :
    n ∉ localFilenames s.files (fpath s zkpath)
    ∧ n ∉ (_filter_children_actions (sortStrings children)
        (localFilenames s.files (fpath s zkpath))).2.1
    ∧ join_zookeeper_path zkpath n ∉ cw.delCalls := by
  have h1 : n ∉ localFilenames s.files (fpath s zkpath) :=
    dot_not_mem_localFilenames s.files (fpath s zkpath) n hdot
  have h2 : n ∉ (_filter_children_actions (sortStrings children)
      (localFilenames s.files (fpath s zkpath))).2.1 :=
    fun hm => h1 (fca_remove_subset (sortStrings children)
      (localFilenames s.files (fpath s zkpath)) n hm)
  refine ⟨h1, h2, ?_⟩
  intro hmem
  rw [children_watch_delCalls s remote now zkpath children watch_data
    cont_watch_predicate cw hrun] at hmem
  rcases List.mem_map.mp hmem with ⟨m, hm, hjoin⟩
  have : m = n := by
    have := List.append_cancel_left hjoin
    exact (List.cons.injEq m [] n []).mp this |>.1
  exact h2 (this ▸ hm)

/-- Witness for C10 at the done-marker name on a concrete reconciliation. -/
theorem children_watch_never_removes_dotfiles_witness :
    startsWithDot doneName = true
    ∧ (doneName ∉ localFilenames
        (SyncState.mk [] [[("p")]] [("r")] false
          [⟨[("r"),("p"),doneName], (""), 0⟩]).files
        (fpath (SyncState.mk [] [[("p")]] [("r")] false
          [⟨[("r"),("p"),doneName], (""), 0⟩]) [("p")])
      ∧ doneName ∉ (_filter_children_actions (sortStrings [])
          (localFilenames (SyncState.mk [] [[("p")]] [("r")] false
            [⟨[("r"),("p"),doneName], (""), 0⟩]).files
            (fpath (SyncState.mk [] [[("p")]] [("r")] false
              [⟨[("r"),("p"),doneName], (""), 0⟩]) [("p")]))).2.1
      ∧ join_zookeeper_path [("p")] doneName ∉
          (CwRes.mk (SyncState.mk [] [[("p")]] [("r")] false
            [⟨[("r"),("p"),doneName], (""), 0⟩]) [] [] [] [] true).delCalls) :=
  ⟨by decide,
   children_watch_never_removes_dotfiles
     (SyncState.mk [] [[("p")]] [("r")] false [⟨[("r"),("p"),doneName], (""), 0⟩])
     (Remote.mk (fun _ => none) (fun _ => [])) 2 [("p")] [] false none
     doneName
     (CwRes.mk (SyncState.mk [] [[("p")]] [("r")] false
       [⟨[("r"),("p"),doneName], (""), 0⟩]) [] [] [] [] true)
     (by decide) (by decide)⟩

end ZkSync

namespace ZkSync

/-- The keep-watching verdict returned by a successful children
reconciliation is exactly the cont_watch_predicate evaluated on the zk path
and the sorted remote children, True when no predicate was supplied. -/
theorem children_watch_renew (s : SyncState) (remote : Remote) (now : Nat)
    (zkpath : Path) (children : List String) (watch_data : Bool)
    (cont_watch_predicate : Option (Path → List String → Bool)) (cw : CwRes)
    (h : _children_watch s remote now zkpath children watch_data
        cont_watch_predicate = some cw) :
    cw.renew = contPredEval cont_watch_predicate zkpath
      (sortStrings children) := by
  simp only [_children_watch] at h
  split at h
  · cases h
  · rename_i a1 hal
    split at h
    · cases h
    · rename_i a2 ha2
      cases h
      rfl

/-- C5: with no done marker present, sync_children keeps or installs the
children subscription exactly when the disjunction of the two predicates
holds (need_watch_predicate on the path alone, or cont_watch_predicate on
the path and the sorted remote children, each defaulting to yes when
absent), and the done marker is written exactly when no subscription is
active after that decision. -/
theorem sync_children_watch_disjunction (s : SyncState) (remote : Remote)
    (now : Nat) (zkpath : Path) (watch_data : Bool)
    (need_watch_predicate : Option (Path → Bool))
    (cont_watch_predicate : Option (Path → List String → Bool)) (r : ScRes)
    (hdone : (lookupFile s.files (fpath s zkpath ++ [doneName])).isSome = false)
    (hrun : sync_children s remote now zkpath watch_data need_watch_predicate
        cont_watch_predicate = some r) :
    r.watchInstalled = (needPredEval need_watch_predicate zkpath
        || contPredEval cont_watch_predicate zkpath
          (sortStrings (getChildrenSafe remote zkpath)))
    ∧ r.doneWritten = !r.watchInstalled := by
  simp only [sync_children] at hrun
  rw [if_neg (by simp [hdone])] at hrun
  by_cases hneed : needPredEval need_watch_predicate zkpath = true
  · rw [if_pos hneed] at hrun
    cases hrun
    refine ⟨?_, rfl⟩
    rw [hneed]
    rfl
  · have hneed' : needPredEval need_watch_predicate zkpath = false := by
      revert hneed
      cases needPredEval need_watch_predicate zkpath <;> simp
    rw [if_neg hneed] at hrun
    split at hrun
    · cases hrun
    · rename_i cw hcw
      have hr := children_watch_renew s remote now zkpath
        (getChildrenSafe remote zkpath) watch_data cont_watch_predicate cw hcw
      by_cases hrn : cw.renew = true
      · rw [if_pos hrn] at hrun
        cases hrun
        refine ⟨?_, rfl⟩
        rw [hneed', ← hr, hrn]
        rfl
      · have hrn' : cw.renew = false := by
          revert hrn
          cases cw.renew <;> simp
        rw [if_neg hrn] at hrun
        cases hrun
        refine ⟨?_, rfl⟩
        rw [hneed', ← hr, hrn']
        rfl

/-- Witness for C5: both predicates refuse the watch, so no subscription is
installed and the done marker is written. -/
theorem sync_children_watch_disjunction_witness :
    (lookupFile [FsEntry.mk [("r"),("p"),("a")] ("x") 3]
        (fpath (SyncState.mk [] [[("p")]] [("r")] false
          [FsEntry.mk [("r"),("p"),("a")] ("x") 3]) [("p")] ++ [doneName])).isSome = false
    ∧ ((ScRes.mk { SyncState.mk [] [[("p")]] [("r")] false
            [FsEntry.mk [("r"),("p"),("a")] ("x") 3] with
            files := touchFs [FsEntry.mk [("r"),("p"),("a")] ("x") 3]
              [("r"),("p"),doneName] 7 }
          [ZkCall.getChildren [("p")]] [FsMut.touch [("r"),("p"),doneName] 7]
          false true).watchInstalled =
        (needPredEval (some (fun _ => false)) [("p")]
          || contPredEval (some (fun _ _ => false)) [("p")]
            (sortStrings (getChildrenSafe
              (Remote.mk (fun _ => some (some ("x"), 3)) (fun _ => [("a")]))
              [("p")])))
      ∧ (ScRes.mk { SyncState.mk [] [[("p")]] [("r")] false
            [FsEntry.mk [("r"),("p"),("a")] ("x") 3] with
            files := touchFs [FsEntry.mk [("r"),("p"),("a")] ("x") 3]
              [("r"),("p"),doneName] 7 }
          [ZkCall.getChildren [("p")]] [FsMut.touch [("r"),("p"),doneName] 7]
          false true).doneWritten = !(ScRes.mk { SyncState.mk [] [[("p")]] [("r")] false
            [FsEntry.mk [("r"),("p"),("a")] ("x") 3] with
            files := touchFs [FsEntry.mk [("r"),("p"),("a")] ("x") 3]
              [("r"),("p"),doneName] 7 }
          [ZkCall.getChildren [("p")]] [FsMut.touch [("r"),("p"),doneName] 7]
          false true).watchInstalled) :=
  ⟨by decide,
   sync_children_watch_disjunction
     (SyncState.mk [] [[("p")]] [("r")] false
       [FsEntry.mk [("r"),("p"),("a")] ("x") 3])
     (Remote.mk (fun _ => some (some ("x"), 3)) (fun _ => [("a")])) 7
     [("p")] false (some (fun _ => false)) (some (fun _ _ => false))
     (ScRes.mk { SyncState.mk [] [[("p")]] [("r")] false
         [FsEntry.mk [("r"),("p"),("a")] ("x") 3] with
         files := touchFs [FsEntry.mk [("r"),("p"),("a")] ("x") 3]
           [("r"),("p"),doneName] 7 }
       [ZkCall.getChildren [("p")]] [FsMut.touch [("r"),("p"),doneName] 7]
       false true)
     (by decide) (by decide)⟩

/-- C9: when a need_watch_predicate is supplied and refuses the path, and
no cont_watch_predicate is supplied, the one-shot reconciliation returns
the keep-watching verdict, so sync_children performs the synchronous
listing first, installs the children subscription afterwards, and does not
write the done marker. -/
theorem sync_children_default_cont_keeps_watch (s : SyncState)
    (remote : Remote) (now : Nat) (zkpath : Path) (watch_data : Bool)
    (np : Path → Bool) (cw : CwRes)
    (hdone : (lookupFile s.files (fpath s zkpath ++ [doneName])).isSome = false)
    (hneed : np zkpath = false)
    (hcw : _children_watch s remote now zkpath (getChildrenSafe remote zkpath)
        watch_data none = some cw) :
    cw.renew = true
    ∧ sync_children s remote now zkpath watch_data (some np) none =
        some { state := _update_last cw.state now,
               zkCalls := ZkCall.getChildren zkpath ::
                 (cw.zkCalls ++ [ZkCall.childrenSubscribe zkpath]),
               muts := cw.muts, watchInstalled := true,
               doneWritten := false } := by
  have hr : cw.renew = true := by
    rw [children_watch_renew s remote now zkpath
      (getChildrenSafe remote zkpath) watch_data none cw hcw]
    rfl
  refine ⟨hr, ?_⟩
  simp only [sync_children]
  rw [if_neg (by simp [hdone]), if_neg (by simp [needPredEval, hneed]), hcw]
  dsimp only
  rw [if_pos hr]

/-- Witness for C9 at a concrete already-synchronized mirror. -/
theorem sync_children_default_cont_keeps_watch_witness :
    (lookupFile [FsEntry.mk [("r"),("p"),("a")] ("x") 3]
        (fpath (SyncState.mk [] [[("p")]] [("r")] false
          [FsEntry.mk [("r"),("p"),("a")] ("x") 3]) [("p")] ++ [doneName])).isSome = false
    ∧ ((fun _ => false) : Path → Bool) [("p")] = false
    ∧ ((CwRes.mk (SyncState.mk [] [[("p")]] [("r")] false
          [FsEntry.mk [("r"),("p"),("a")] ("x") 3]) [] [] [] [] true).renew = true
      ∧ sync_children (SyncState.mk [] [[("p")]] [("r")] false
            [FsEntry.mk [("r"),("p"),("a")] ("x") 3])
          (Remote.mk (fun _ => some (some ("x"), 3)) (fun _ => [("a")])) 7
          [("p")] false (some (fun _ => false)) none =
        some { state := _update_last (CwRes.mk (SyncState.mk [] [[("p")]] [("r")] false
                 [FsEntry.mk [("r"),("p"),("a")] ("x") 3]) [] [] [] [] true).state 7,
               zkCalls := ZkCall.getChildren [("p")] ::
                 ((CwRes.mk (SyncState.mk [] [[("p")]] [("r")] false
                   [FsEntry.mk [("r"),("p"),("a")] ("x") 3]) [] [] [] [] true).zkCalls
                   ++ [ZkCall.childrenSubscribe [("p")]]),
               muts := (CwRes.mk (SyncState.mk [] [[("p")]] [("r")] false
                 [FsEntry.mk [("r"),("p"),("a")] ("x") 3]) [] [] [] [] true).muts,
               watchInstalled := true, doneWritten := false }) :=
  ⟨by decide, rfl,
   sync_children_default_cont_keeps_watch
     (SyncState.mk [] [[("p")]] [("r")] false
       [FsEntry.mk [("r"),("p"),("a")] ("x") 3])
     (Remote.mk (fun _ => some (some ("x"), 3)) (fun _ => [("a")])) 7
     [("p")] false (fun _ => false)
     (CwRes.mk (SyncState.mk [] [[("p")]] [("r")] false
       [FsEntry.mk [("r"),("p"),("a")] ("x") 3]) [] [] [] [] true)
     (by decide) rfl (by decide)⟩

end ZkSync

namespace ZkSync

/-! The general partition theorem for the children diff. -/

theorem ne_of_data_lt {a b : String} (h : a.data < b.data) : a ≠ b :=
  fun heq => absurd (heq ▸ h) (lt_irrefl _)

theorem filter_notmem_cons_of_ne (y : String) (l t : List String)
    (hne : ∀ x ∈ l, x ≠ y) :
    l.filter (fun x => decide (x ∉ y :: t)) =
      l.filter (fun x => decide (x ∉ t)) := by
  apply List.filter_congr
  intro x hx
  simp [List.mem_cons, hne x hx]

theorem filter_mem_cons_of_ne (y : String) (l t : List String)
    (hne : ∀ x ∈ l, x ≠ y) :
    l.filter (fun x => decide (x ∈ y :: t)) =
      l.filter (fun x => decide (x ∈ t)) := by
  apply List.filter_congr
  intro x hx
  simp [List.mem_cons, hne x hx]

/-- One step of the merge pass, against every sorted local list: given that
the outer pass on the remaining remote names cs computes the partition,
processing the remote name a (smaller than every name in cs) computes the
partition of a :: cs. -/
theorem filterChildrenStep_partition (a : String) (cs : List String)
    (ha : ∀ y ∈ cs, a.data < y.data)
    (ih : ∀ f : List String,
      f.Sorted (fun x y : String => x.data < y.data) →
      _filter_children_actions cs f =
        (cs.filter (fun x => decide (x ∉ f)),
         f.filter (fun x => decide (x ∉ cs)),
         cs.filter (fun x => decide (x ∈ f)))) :
    ∀ f : List String, f.Sorted (fun x y : String => x.data < y.data) →
      filterChildrenStep a (_filter_children_actions cs) f =
        ((a :: cs).filter (fun x => decide (x ∉ f)),
         f.filter (fun x => decide (x ∉ a :: cs)),
         (a :: cs).filter (fun x => decide (x ∈ f))) := by
  intro f
  induction f with
  | nil =>
      intro _
      simp only [filterChildrenStep]
      rw [ih [] List.sorted_nil]
      simp
  | cons b fs ihf =>
      intro hf
      obtain ⟨hb, hfs⟩ := List.sorted_cons.mp hf
      by_cases hab : a = b
      · subst hab
        have hne_cs : ∀ x ∈ cs, x ≠ a :=
          fun x hx => (ne_of_data_lt (ha x hx)).symm
        have hne_fs : ∀ x ∈ fs, x ≠ a :=
          fun x hx => (ne_of_data_lt (hb x hx)).symm
        have h1 : List.filter (fun x => decide (x ∉ a :: fs)) (a :: cs) =
            List.filter (fun x => decide (x ∉ a :: fs)) cs :=
          List.filter_cons_of_neg (by simp)
        have h3 : List.filter (fun x => decide (x ∉ a :: cs)) (a :: fs) =
            List.filter (fun x => decide (x ∉ a :: cs)) fs :=
          List.filter_cons_of_neg (by simp)
        have h5 : List.filter (fun x => decide (x ∈ a :: fs)) (a :: cs) =
            a :: List.filter (fun x => decide (x ∈ a :: fs)) cs :=
          List.filter_cons_of_pos (by simp)
        simp only [filterChildrenStep]
        rw [if_pos trivial, ih fs hfs]
        dsimp only
        rw [h1, filter_notmem_cons_of_ne a cs fs hne_cs,
          h3, filter_notmem_cons_of_ne a fs cs hne_fs,
          h5, filter_mem_cons_of_ne a cs fs hne_cs]
      · by_cases hlt : a.data < b.data
        · have hna : a ∉ b :: fs := by
            intro hm
            rcases List.mem_cons.mp hm with h1 | h2
            · exact hab h1
            · exact absurd (lt_trans hlt (hb a h2)) (lt_irrefl _)
          have hne_bfs : ∀ x ∈ b :: fs, x ≠ a := by
            intro x hx
            rcases List.mem_cons.mp hx with h1 | h2
            · exact h1 ▸ (fun hba => hab hba.symm)
            · exact (ne_of_data_lt (lt_trans hlt (hb x h2))).symm
          have h1 : List.filter (fun x => decide (x ∉ b :: fs)) (a :: cs) =
              a :: List.filter (fun x => decide (x ∉ b :: fs)) cs :=
            List.filter_cons_of_pos (by simp [hna])
          have h2 : List.filter (fun x => decide (x ∈ b :: fs)) (a :: cs) =
              List.filter (fun x => decide (x ∈ b :: fs)) cs :=
            List.filter_cons_of_neg (by simp [hna])
          simp only [filterChildrenStep]
          rw [if_neg hab, if_pos hlt, ih (b :: fs) hf]
          dsimp only
          rw [h1, filter_notmem_cons_of_ne a (b :: fs) cs hne_bfs, h2]
        · have hgt : b.data < a.data := by
            rcases lt_trichotomy a.data b.data with h1 | h1 | h1
            · exact absurd h1 hlt
            · exact absurd (String.ext h1) hab
            · exact h1
          have hne_acs : ∀ x ∈ a :: cs, x ≠ b := by
            intro x hx
            rcases List.mem_cons.mp hx with h1 | h2
            · exact h1 ▸ hab
            · exact (ne_of_data_lt (lt_trans hgt (ha x h2))).symm
          have hnb : b ∉ a :: cs := fun hm => hne_acs b hm rfl
          have h1 : List.filter (fun x => decide (x ∉ a :: cs)) (b :: fs) =
              b :: List.filter (fun x => decide (x ∉ a :: cs)) fs :=
            List.filter_cons_of_pos (by simp [hnb])
          simp only [filterChildrenStep]
          rw [if_neg hab, if_neg hlt, ihf hfs]
          dsimp only
          rw [filter_notmem_cons_of_ne b (a :: cs) fs hne_acs, h1,
            filter_mem_cons_of_ne b (a :: cs) fs hne_acs]

/-- C1: the single-pass merge of the sorted remote child-name list with the
sorted local filename list partitions the names: add is exactly the remote
names absent locally, remove is exactly the local names absent remotely,
and common is exactly the names present in both, for every pair of
(strictly) sorted input lists. -/
theorem filter_children_actions_partitions :
    ∀ c : List String, c.Sorted (fun x y : String => x.data < y.data) →
    ∀ f : List String, f.Sorted (fun x y : String => x.data < y.data) →
      _filter_children_actions c f =
        (c.filter (fun x => decide (x ∉ f)),
         f.filter (fun x => decide (x ∉ c)),
         c.filter (fun x => decide (x ∈ f))) := by
  intro c
  induction c with
  | nil =>
      intro _ f _
      simp [_filter_children_actions]
  | cons a cs ih =>
      intro hc f hf
      obtain ⟨ha, hcs⟩ := List.sorted_cons.mp hc
      exact filterChildrenStep_partition a cs ha (fun g hg => ih hcs g hg) f hf

/-- Witness for C1: the spec's worked example, remote a c e against local
b c d, yields add a e, remove b d, common c. -/
theorem filter_children_actions_partitions_witness :
    ([("a"),("c"),("e")] : List String).Sorted
        (fun x y : String => x.data < y.data)
    ∧ ([("b"),("c"),("d")] : List String).Sorted
        (fun x y : String => x.data < y.data)
    ∧ _filter_children_actions [("a"),("c"),("e")] [("b"),("c"),("d")] =
        ([("a"),("e")], [("b"),("d")], [("c")]) := by
  refine ⟨by decide, by decide, ?_⟩
  rw [filter_children_actions_partitions [("a"),("c"),("e")] (by decide)
    [("b"),("c"),("d")] (by decide)]
  decide

end ZkSync
